import Mathlib

/-!
Verification of the NIP-26 delegation core (crates/nostr/src/nips/nip26.rs) and
the relay supervisor state machine (crates/nostr-sdk/src/relay/mod.rs) of the
nostr client library, against its natural-language specification.

The Rust code is shallowly embedded: pure string processing is modelled on
`List Char` (the Rust code only ever splits and strips ASCII, where byte and
character positions coincide), `u64` values are `Nat` with an explicit
`< 2 ^ 64` well-formedness bound, and fallible operations return `Except` or
`Option`. External collaborators (secp256k1 Schnorr, SHA-256, hex rendering of
keys and signatures, serde_json) are modelled as an oracle record, following
the specification's "external collaborators" clause.
-/

deriving instance DecidableEq for Except

namespace Nip26

/-- Tag validation errors (enum `ValidationError` in nip26.rs). -/
inductive ValidationError where
  | InvalidSignature
  | InvalidKind
  | CreatedTooEarly
  | CreatedTooLate
deriving DecidableEq, Repr

/-- NIP26 error kinds (enum `Error` in nip26.rs). The payloads of the `Key`,
`Secp256k1` and `ConditionsParseNumeric` variants are external-library values
and are elided; no code under verification inspects them. -/
inductive Error where
  | Key
  | Secp256k1
  | ConditionsParseInvalidCondition
  | ConditionsParseNumeric
  | ConditionsValidation (e : ValidationError)
  | DelegationTagParse
deriving DecidableEq, Repr

/-- A condition from the delegation conditions (enum `Condition`). The u64
payload is a `Nat`; `Condition.wf` bounds it below `2 ^ 64`. -/
inductive Condition where
  | Kind (k : Nat)
  | CreatedBefore (t : Nat)
  | CreatedAfter (t : Nat)
deriving DecidableEq, Repr

/-- The character for decimal digit `d`. -/
def digitChar (d : Nat) : Char := Char.ofNat (48 + d)

/-- Decimal digits of `n`, most significant first, empty for `n = 0`; `fuel`
bounds the number of digits produced. Mirrors the Rust `Display` rendering of
unsigned integers (repeated division by ten). -/
def natChars : Nat → Nat → List Char
  | 0, _ => []
  | fuel + 1, n => if n = 0 then [] else natChars fuel (n / 10) ++ [digitChar (n % 10)]

/-- Decimal rendering of a u64 value, as Rust's `Display for u64` produces it.
A u64 value has at most 20 decimal digits, so fuel 20 always suffices. -/
def u64Chars (n : Nat) : List Char := if n = 0 then ['0'] else natChars 20 n

/-- Accumulate the value of a most-significant-first decimal digit string. -/
def digitsVal (ds : List Char) : Nat := ds.foldl (fun a c => 10 * a + (c.toNat - 48)) 0

/-- Rust `u64::from_str` collapsed to an `Option`: the input must be nonempty,
may carry one leading '+' sign (the standard library accepts it for unsigned
types), and the rest must be one or more decimal digits whose value fits in 64
bits. Everything else (empty, other signs, non-digits, overflow) is `none`. -/
def parseU64 (l : List Char) : Option Nat :=
  if l = [] then none
  else
    let ds := if l.head? = some '+' then l.tail else l
    if ds = [] then none
    else if ds.all Char.isDigit then
      if digitsVal ds < 2 ^ 64 then some (digitsVal ds) else none
    else none

/-- Strip a literal pattern from the front of a character list, Rust
`str::strip_prefix`. -/
def stripPre : List Char → List Char → Option (List Char)
  | [], l => some l
  | _ :: _, [] => none
  | p :: ps, c :: cs => if c = p then stripPre ps cs else none

/-- The pattern `kind=`. -/
def kindPat : List Char := ['k', 'i', 'n', 'd', '=']

/-- The pattern `created_at<`. -/
def beforePat : List Char := ['c', 'r', 'e', 'a', 't', 'e', 'd', '_', 'a', 't', '<']

/-- The pattern `created_at>`. -/
def afterPat : List Char := ['c', 'r', 'e', 'a', 't', 'e', 'd', '_', 'a', 't', '>']

/-- `FromStr for Condition` on character lists: strip `kind=`, `created_at<`,
`created_at>` in that order; parse the remainder as u64. A failed integer parse
is `ConditionsParseNumeric`; no matching pattern is
`ConditionsParseInvalidCondition`. -/
def Condition.fromChars (l : List Char) : Except Error Condition :=
  match stripPre kindPat l with
  | some rest =>
    match parseU64 rest with
    | some n => .ok (.Kind n)
    | none => .error .ConditionsParseNumeric
  | none =>
    match stripPre beforePat l with
    | some rest =>
      match parseU64 rest with
      | some n => .ok (.CreatedBefore n)
      | none => .error .ConditionsParseNumeric
    | none =>
      match stripPre afterPat l with
      | some rest =>
        match parseU64 rest with
        | some n => .ok (.CreatedAfter n)
        | none => .error .ConditionsParseNumeric
      | none => .error .ConditionsParseInvalidCondition

/-- `FromStr for Condition`. -/
def Condition.fromStr (s : String) : Except Error Condition :=
  Condition.fromChars s.data

/-- `ToString for Condition`: `kind=<n>`, `created_at<<n>`, `created_at><n>`. -/
def Condition.toChars : Condition → List Char
  | .Kind k => kindPat ++ u64Chars k
  | .CreatedBefore t => beforePat ++ u64Chars t
  | .CreatedAfter t => afterPat ++ u64Chars t

/-- `ToString for Condition`, packed as a string. -/
def Condition.toStr (c : Condition) : String := ⟨c.toChars⟩

/-- The u64 payload of a condition. -/
def Condition.bound : Condition → Nat
  | .Kind k => k
  | .CreatedBefore t => t
  | .CreatedAfter t => t

/-- Well-formedness: the payload is representable as a Rust u64. -/
def Condition.wf (c : Condition) : Prop := c.bound < 2 ^ 64

instance (c : Condition) : Decidable c.wf :=
  inferInstanceAs (Decidable (c.bound < 2 ^ 64))

/-- Set of conditions of a delegation (struct `Conditions(Vec<Condition>)`). -/
structure Conditions where
  inner : List Condition
deriving DecidableEq, Repr

/-- Well-formedness: every payload is representable as a Rust u64. -/
def Conditions.wf (cs : Conditions) : Prop := ∀ c ∈ cs.inner, c.wf

instance (cs : Conditions) : Decidable cs.wf :=
  inferInstanceAs (Decidable (∀ c ∈ cs.inner, c.wf))

/-- `Display for Conditions`: the per-element renderings joined by '&'. -/
def Conditions.toChars (cs : Conditions) : List Char :=
  List.intercalate ['&'] (cs.inner.map Condition.toChars)

/-- `Display for Conditions`, packed as a string. -/
def Conditions.toStr (cs : Conditions) : String := ⟨cs.toChars⟩

/-- Rust `str::split(sep)` on character lists: the (always nonempty) list of
separator-delimited pieces; the empty input yields one empty piece, and
adjacent separators yield empty pieces. -/
def splitChar (sep : Char) : List Char → List (List Char)
  | [] => [[]]
  | c :: cs =>
    if c = sep then [] :: splitChar sep cs
    else
      match splitChar sep cs with
      | [] => [[c]]
      | r :: rs => (c :: r) :: rs

/-- Parse every piece with `Condition.fromChars`, stopping at the first error:
the `collect::<Result<Vec<Condition>, _>>` in `FromStr for Conditions`. -/
def parsePieces : List (List Char) → Except Error (List Condition)
  | [] => .ok []
  | p :: ps =>
    match Condition.fromChars p with
    | .error e => .error e
    | .ok c =>
      match parsePieces ps with
      | .error e => .error e
      | .ok cs => .ok (c :: cs)

/-- `FromStr for Conditions`: the empty input is the empty condition set
(special case); otherwise split on '&' and parse every piece. -/
def Conditions.fromChars (l : List Char) : Except Error Conditions :=
  if l = [] then .ok ⟨[]⟩
  else
    match parsePieces (splitChar '&' l) with
    | .error e => .error e
    | .ok cs => .ok ⟨cs⟩

/-- `FromStr for Conditions`. -/
def Conditions.fromStr (s : String) : Except Error Conditions :=
  Conditions.fromChars s.data

/-- Properties of an event relevant for delegation (struct `EventProperties`). -/
structure EventProperties where
  kind : Nat
  created_time : Nat
deriving DecidableEq, Repr

/-- `EventProperties::new`. -/
def EventProperties.new (event_kind : Nat) (created_time : Nat) : EventProperties :=
  ⟨event_kind, created_time⟩

/-- `Condition::evaluate`: kind must match exactly; creation time is compared
with strict inequalities. -/
def Condition.evaluate (c : Condition) (ep : EventProperties) : Except ValidationError Unit :=
  match c with
  | .Kind k => if ep.kind ≠ k then .error .InvalidKind else .ok ()
  | .CreatedBefore t => if ep.created_time ≥ t then .error .CreatedTooLate else .ok ()
  | .CreatedAfter t => if ep.created_time ≤ t then .error .CreatedTooEarly else .ok ()

/-- The condition-by-condition loop of `Conditions::evaluate`, stopping at the
first failure. -/
def evalList : List Condition → EventProperties → Except ValidationError Unit
  | [], _ => .ok ()
  | c :: cs, ep =>
    match c.evaluate ep with
    | .error e => .error e
    | .ok _ => evalList cs ep

/-- `Conditions::evaluate`. -/
def Conditions.evaluate (cs : Conditions) (ep : EventProperties) : Except ValidationError Unit :=
  evalList cs.inner ep

/-- Modelled from the spec: the external collaborators of the NIP-26 core are
not under src/ and are treated as an oracle, per the specification's scope
clause ("the underlying secp256k1/Schnorr primitive (treated as an oracle with
sign(msg,sk) -> sig and verify(msg,sig,pk) -> bool), SHA-256 (oracle)").
`pkToStr`/`sigToStr` are the upstream hex `Display` impls, `pkFromStr`/
`sigFromStr` the upstream `FromStr` impls, and `arrToJson`/`arrFromJson` the
serde_json encoding of a JSON array of strings used by `as_json`/`from_json`. -/
structure Crypto (SK PK Sig Msg : Type) where
  pubkey : SK → PK
  sign : SK → Msg → Sig
  verify : Sig → Msg → PK → Bool
  sha256 : String → Msg
  pkToStr : PK → String
  pkFromStr : String → Option PK
  sigToStr : Sig → String
  sigFromStr : String → Option Sig
  arrToJson : List String → String
  arrFromJson : String → Option (List String)

/-- The `DELEGATION_KEYWORD` constant. -/
def DELEGATION_KEYWORD : String := "delegation"

variable {SK PK Sig Msg : Type}

/-- `DelegationToken::new`: the exact signing preimage string
`nostr:delegation:<delegatee>:<conditions>` assembled by `format!`. -/
def DelegationToken.new (O : Crypto SK PK Sig Msg) (delegatee_pk : PK)
    (conditions : Conditions) : String :=
  "nostr:" ++ DELEGATION_KEYWORD ++ ":" ++ O.pkToStr delegatee_pk ++ ":" ++ conditions.toStr

/-- `sign_delegation`: hash the token with SHA-256 and Schnorr-sign the hash.
(`Message::from_slice` cannot fail on a 32-byte hash, so the operation is
total here.) -/
def sign_delegation (O : Crypto SK PK Sig Msg) (delegator_keys : SK) (delegatee_pk : PK)
    (conditions : Conditions) : Sig :=
  O.sign delegator_keys (O.sha256 (DelegationToken.new O delegatee_pk conditions))

/-- `verify_delegation_signature`: rebuild the token from the given delegatee
key and conditions, hash it, and verify the Schnorr signature against the
delegator key; a failed verification surfaces as a secp256k1 error. -/
def verify_delegation_signature (O : Crypto SK PK Sig Msg) (delegator_public_key : PK)
    (signature : Sig) (delegatee_public_key : PK) (conditions : Conditions) :
    Except Error Unit :=
  if O.verify signature (O.sha256 (DelegationToken.new O delegatee_public_key conditions))
      delegator_public_key
  then .ok () else .error .Secp256k1

/-- Delegation tag (struct `DelegationTag`): delegator public key, conditions,
and the delegator's Schnorr signature over the token hash. -/
structure DelegationTag (PK Sig : Type) where
  delegator_pubkey : PK
  conditions : Conditions
  signature : Sig
deriving DecidableEq, Repr

/-- `DelegationTag::new`: sign for the given delegatee and assemble the tag,
which stores the delegator public key (not the delegatee). -/
def DelegationTag.new (O : Crypto SK PK Sig Msg) (delegator_keys : SK) (delegatee_pubkey : PK)
    (conditions : Conditions) : DelegationTag PK Sig :=
  { delegator_pubkey := O.pubkey delegator_keys
    conditions := conditions
    signature := sign_delegation O delegator_keys delegatee_pubkey conditions }

/-- `DelegationTag::validate`: verify the signature over the token rebuilt from
the claimed delegatee key, remapping any verification error to
`ValidationError::InvalidSignature`; then evaluate the conditions. -/
def DelegationTag.validate (O : Crypto SK PK Sig Msg) (t : DelegationTag PK Sig)
    (delegatee_pubkey : PK) (event_properties : EventProperties) : Except Error Unit :=
  match verify_delegation_signature O t.delegator_pubkey t.signature delegatee_pubkey
      t.conditions with
  | .error _ => .error (.ConditionsValidation .InvalidSignature)
  | .ok _ =>
    match t.conditions.evaluate event_properties with
    | .error e => .error (.ConditionsValidation e)
    | .ok _ => .ok ()

/-- `DelegationTag::as_json`: the JSON rendering of the 4-element string array
`["delegation", delegator_hex, conditions, signature_hex]`. -/
def DelegationTag.as_json (O : Crypto SK PK Sig Msg) (t : DelegationTag PK Sig) : String :=
  O.arrToJson
    [DELEGATION_KEYWORD, O.pkToStr t.delegator_pubkey, t.conditions.toStr, O.sigToStr t.signature]

/-- `TryFrom<Vec<String>> for DelegationTag`: exactly four elements, the first
the literal keyword; the remaining fields parsed by the upstream `FromStr`
impls (whose failures surface as secp256k1 errors) and `Conditions::from_str`. -/
def DelegationTag.tryFrom (O : Crypto SK PK Sig Msg) (tag : List String) :
    Except Error (DelegationTag PK Sig) :=
  match tag with
  | [t0, t1, t2, t3] =>
    if t0 ≠ DELEGATION_KEYWORD then .error .DelegationTagParse
    else
      match O.pkFromStr t1 with
      | none => .error .Secp256k1
      | some pk =>
        match Conditions.fromStr t2 with
        | .error e => .error e
        | .ok conds =>
          match O.sigFromStr t3 with
          | none => .error .Secp256k1
          | some sig => .ok ⟨pk, conds, sig⟩
  | _ => .error .DelegationTagParse

/-- `DelegationTag::from_json`: decode the JSON string array (any serde failure
is `DelegationTagParse`), then convert. -/
def DelegationTag.from_json (O : Crypto SK PK Sig Msg) (s : String) :
    Except Error (DelegationTag PK Sig) :=
  match O.arrFromJson s with
  | none => .error .DelegationTagParse
  | some tag => DelegationTag.tryFrom O tag

end Nip26

/-- Stated from the spec (section 4.A, Evaluate): the specific validation error
a single condition produces on an event, with strict inequality boundaries —
equality to the bound fails. -/
def Nip26.specViolation (c : Nip26.Condition) (ep : Nip26.EventProperties) :
    Option Nip26.ValidationError :=
  match c with
  | .Kind k => if ep.kind ≠ k then some .InvalidKind else none
  | .CreatedBefore t => if ep.created_time ≥ t then some .CreatedTooLate else none
  | .CreatedAfter t => if ep.created_time ≤ t then some .CreatedTooEarly else none

/-- Stated from the spec: evaluation short-circuits on the first condition in
sequence order that is violated, returning its specific error, and succeeds
when no condition is violated. -/
def Nip26.specEvaluate (cs : Nip26.Conditions) (ep : Nip26.EventProperties) :
    Except Nip26.ValidationError Unit :=
  match cs.inner.findSome? (fun c => Nip26.specViolation c ep) with
  | some e => .error e
  | none => .ok ()

/-- Stated from the spec (section 4.A, Conditions parse): split the input at
every '&' without trimming, parse each piece with `Condition::from_str`, and
abort with the first failure; the empty input yields the empty sequence, a
special case rather than a single empty element. -/
def Nip26.specConditionsParse (s : String) : Except Nip26.Error Nip26.Conditions :=
  if s.data = [] then .ok ⟨[]⟩
  else
    match (s.data.splitOn '&').mapM Nip26.Condition.fromChars with
    | .error e => .error e
    | .ok cs => .ok ⟨cs⟩

/-- Stated from the spec grammar, as amended: the body of a u64 numeral is one
or more decimal digits whose value fits in 64 bits. -/
def Nip26.numeralBody (ds : List Char) : Option Nat :=
  if ds ≠ [] ∧ ds.all Char.isDigit ∧ Nip26.digitsVal ds < 2 ^ 64
  then some (Nip26.digitsVal ds) else none

/-- Stated from the spec grammar, as amended: a u64 numeral is an optional
leading '+' sign followed by a numeral body. -/
def Nip26.specNumeral : List Char → Option Nat
  | '+' :: ds => Nip26.numeralBody ds
  | ds => Nip26.numeralBody ds

/-- Stated from the spec grammar, as amended: a condition is one of the three
literal patterns followed by a u64 numeral; an unknown pattern is
`InvalidCondition` and a failed numeral is `Numeric`. -/
def Nip26.specCondParse (l : List Char) : Except Nip26.Error Nip26.Condition :=
  if l.take 5 = Nip26.kindPat then
    match Nip26.specNumeral (l.drop 5) with
    | some n => .ok (.Kind n)
    | none => .error .ConditionsParseNumeric
  else if l.take 11 = Nip26.beforePat then
    match Nip26.specNumeral (l.drop 11) with
    | some n => .ok (.CreatedBefore n)
    | none => .error .ConditionsParseNumeric
  else if l.take 11 = Nip26.afterPat then
    match Nip26.specNumeral (l.drop 11) with
    | some n => .ok (.CreatedAfter n)
    | none => .error .ConditionsParseNumeric
  else .error .ConditionsParseInvalidCondition

namespace Relay

/-- Relay connection status (enum `RelayStatus` in relay/mod.rs). -/
inductive RelayStatus where
  | Initialized
  | Connected
  | Connecting
  | Disconnected
  | Terminated
deriving DecidableEq, Repr

/-- Modelled from the spec: `ClientMessage` is a higher-level Nostr message
type defined outside src/; the relay core only ever serializes it to JSON, so
it is carried opaquely here. -/
structure ClientMessage where
  json : String
deriving DecidableEq, Repr

/-- Relay commands (enum `RelayEvent`). -/
inductive RelayEvent where
  | SendMsg (msg : ClientMessage)
  | Ping
  | Close
  | Terminate
deriving DecidableEq, Repr

/-- The shared mutable state of a `Relay`: the status cell, the
scheduled-for-termination flag, and the bounded command channel, where
`channelOpen` abstracts whether the receiver (held by the writer task) is
still alive. The URL, proxy and pool sender are immutable and irrelevant to
the state machine. -/
structure RelayState where
  status : RelayStatus
  scheduledForTermination : Bool
  commandQueue : List RelayEvent
  channelOpen : Bool
deriving DecidableEq, Repr

/-- The supervisor tick interval in seconds (`Duration::from_secs(20)` in the
connection thread loop). -/
def supervisorTickSeconds : Nat := 20

/-- `Relay::try_connect` as a state transformer: set `Connecting`, dial, and on
success set `Connected` (also spawning the writer, reader and ping tasks, which
are not part of this state), on failure set `Disconnected` and return. `dialOk`
abstracts the outcome of the external websocket dial. -/
def tryConnect (dialOk : Bool) (s : RelayState) : RelayState :=
  let s2 : RelayState := { s with status := RelayStatus.Connecting }
  if dialOk then { s2 with status := RelayStatus.Connected }
  else { s2 with status := RelayStatus.Disconnected }

/-- Whether an iteration of the supervisor loop exits the loop or sleeps until
the next tick. -/
inductive LoopOutcome where
  | exit
  | next
deriving DecidableEq, Repr

/-- One iteration of the supervisor loop spawned by `Relay::connect`: if the
relay is scheduled for termination, set `Terminated`, clear the flag and exit;
otherwise reconnect when `Disconnected`, exit when `Terminated`, and in any
other status do nothing before sleeping until the next tick. -/
def connectionThreadStep (dialOk : Bool) (s : RelayState) : RelayState × LoopOutcome :=
  if s.scheduledForTermination then
    ({ s with status := RelayStatus.Terminated, scheduledForTermination := false },
      LoopOutcome.exit)
  else
    match s.status with
    | RelayStatus.Disconnected => (tryConnect dialOk s, LoopOutcome.next)
    | RelayStatus.Terminated => (s, LoopOutcome.exit)
    | _ => (s, LoopOutcome.next)

/-- `Relay::connect`: gate on the current status. When it is `Initialized` or
`Terminated`, either dial inline (`wait_for_connection`) or mark the relay
`Disconnected`, and spawn the supervisor loop; in any other status do nothing.
The boolean result records whether the supervisor task was spawned. -/
def connect (dialOk waitForConnection : Bool) (s : RelayState) : RelayState × Bool :=
  match s.status with
  | RelayStatus.Initialized | RelayStatus.Terminated =>
    if waitForConnection then (tryConnect dialOk s, true)
    else ({ s with status := RelayStatus.Disconnected }, true)
  | _ => (s, false)

/-- Relay error kinds (enum `Error` in relay/mod.rs); payloads elided. -/
inductive Error where
  | Url
  | RelayEventSender
deriving DecidableEq, Repr

/-- `Relay::send_relay_event`: enqueue a command on the command channel, failing
with `RelayEventSender` when the channel is closed. (A full channel suspends
the sender rather than failing, so the queue is unbounded in this model.) -/
def sendRelayEvent (ev : RelayEvent) (s : RelayState) : RelayState × Except Error Unit :=
  if s.channelOpen then ({ s with commandQueue := s.commandQueue ++ [ev] }, .ok ())
  else (s, .error .RelayEventSender)

/-- `Relay::terminate`: set the scheduled-for-termination flag first, then
enqueue the `Terminate` command. -/
def terminate (s : RelayState) : RelayState × Except Error Unit :=
  sendRelayEvent RelayEvent.Terminate { s with scheduledForTermination := true }

end Relay

/-- A concrete instantiation of the external-collaborator oracle over plain
strings, used to witness the oracle-parametrized theorems on explicit inputs:
keys are their own rendering, hashing is the identity, a signature is the pair
of signing key and message, and the JSON array codec joins on a newline. -/
def toyCrypto : Nip26.Crypto String String (String × String) String where
  pubkey := id
  sign := fun sk m => (sk, m)
  verify := fun sig m pk => decide (sig = (pk, m))
  sha256 := id
  pkToStr := id
  pkFromStr := fun s => some s
  sigToStr := fun p => p.1 ++ "|" ++ p.2
  sigFromStr := fun s =>
    match Nip26.splitChar '|' s.data with
    | [a, b] => some (⟨a⟩, ⟨b⟩)
    | _ => none
  arrToJson := fun l => ⟨List.intercalate ['\n'] (l.map String.data)⟩
  arrFromJson := fun s => some ((Nip26.splitChar '\n' s.data).map fun l => ⟨l⟩)

/-- The conditions of scenario S2,
`kind=1&created_at>1674834236&created_at<1677426236`. -/
def conds26 : Nip26.Conditions :=
  ⟨[.Kind 1, .CreatedAfter 1674834236, .CreatedBefore 1677426236]⟩

/-- A small concrete condition set for witnesses. -/
def condsEx : Nip26.Conditions := ⟨[.Kind 1, .CreatedAfter 2]⟩

/-- Concrete event properties satisfying `condsEx`. -/
def epEx : Nip26.EventProperties := ⟨1, 5⟩

/-- A concrete delegation tag over the toy oracle for witnesses. -/
def tagEx : Nip26.DelegationTag String (String × String) :=
  ⟨"pk", condsEx, ("si", "g")⟩

/-! ## Decimal rendering and parsing -/

namespace Nip26

theorem digitChar_toNat {d : Nat} (h : d < 10) : (digitChar d).toNat = 48 + d := by
  interval_cases d <;> decide

theorem digitChar_isDigit {d : Nat} (h : d < 10) : (digitChar d).isDigit = true := by
  interval_cases d <;> decide

theorem natChars_digits : ∀ (fuel n : Nat), ∀ c ∈ natChars fuel n, c.isDigit = true := by
  intro fuel
  induction fuel with
  | zero => intro n c hc; simp [natChars] at hc
  | succ fuel ih =>
    intro n c hc
    by_cases hn : n = 0
    · subst hn; simp [natChars] at hc
    · simp only [natChars, if_neg hn, List.mem_append, List.mem_singleton] at hc
      rcases hc with hc | hc
      · exact ih _ c hc
      · subst hc; exact digitChar_isDigit (Nat.mod_lt _ (by omega))

theorem natChars_ne_nil (fuel n : Nat) (hn : n ≠ 0) : natChars (fuel + 1) n ≠ [] := by
  simp only [natChars, if_neg hn]
  simp

theorem foldl_natChars : ∀ (fuel n acc : Nat), n < 10 ^ fuel →
    List.foldl (fun a c => 10 * a + (c.toNat - 48)) acc (natChars fuel n) =
      acc * 10 ^ (natChars fuel n).length + n := by
  intro fuel
  induction fuel with
  | zero =>
    intro n acc h
    have hn : n = 0 := by simpa using h
    subst hn
    simp [natChars]
  | succ fuel ih =>
    intro n acc h
    by_cases hn : n = 0
    · subst hn; simp [natChars]
    · have hdiv : n / 10 < 10 ^ fuel := by
        rw [Nat.div_lt_iff_lt_mul (by omega)]
        calc n < 10 ^ (fuel + 1) := h
        _ = 10 ^ fuel * 10 := by ring
      simp only [natChars, if_neg hn, List.foldl_append, List.length_append,
        List.foldl_cons, List.foldl_nil, List.length_cons, List.length_nil]
      rw [ih (n / 10) acc hdiv]
      rw [digitChar_toNat (Nat.mod_lt _ (by omega : (0:Nat) < 10))]
      have hmod : 48 + n % 10 - 48 = n % 10 := by omega
      rw [hmod, pow_succ]
      have hdm : 10 * (n / 10) + n % 10 = n := by omega
      ring_nf
      omega

theorem u64Chars_digits (n : Nat) : ∀ c ∈ u64Chars n, c.isDigit = true := by
  intro c hc
  by_cases hn : n = 0
  · subst hn; simp [u64Chars] at hc; subst hc; decide
  · rw [u64Chars, if_neg hn] at hc
    exact natChars_digits 20 n c hc

theorem u64Chars_ne_nil (n : Nat) : u64Chars n ≠ [] := by
  by_cases hn : n = 0
  · subst hn; decide
  · rw [u64Chars, if_neg hn]
    exact natChars_ne_nil 19 n hn

theorem digitsVal_u64Chars (n : Nat) (h : n < 2 ^ 64) : digitsVal (u64Chars n) = n := by
  by_cases hn : n = 0
  · subst hn; decide
  · have hlt : n < 10 ^ 20 := lt_trans h (by norm_num)
    rw [u64Chars, if_neg hn, digitsVal, foldl_natChars 20 n 0 hlt]
    simp

theorem parseU64_u64Chars (n : Nat) (h : n < 2 ^ 64) : parseU64 (u64Chars n) = some n := by
  obtain ⟨c, cs, hcons⟩ := List.exists_cons_of_ne_nil (u64Chars_ne_nil n)
  have hdigit : c.isDigit = true :=
    u64Chars_digits n c (by rw [hcons]; exact List.mem_cons_self c cs)
  have hplus : c ≠ '+' := by
    intro hc; rw [hc] at hdigit; exact absurd hdigit (by decide)
  have hval : digitsVal (u64Chars n) = n := digitsVal_u64Chars n h
  rw [hcons] at hval ⊢
  rw [parseU64]
  simp only [List.head?_cons, List.cons_ne_self, if_neg (by simp : ¬(c :: cs = []))]
  rw [if_neg (by simp [hplus] : ¬(some c = some '+'))]
  simp only [if_neg (by simp : ¬(c :: cs = []))]
  rw [if_pos, if_pos (hval ▸ h), hval]
  have := u64Chars_digits n
  rw [hcons] at this
  simpa [List.all_eq_true] using this

/-! ## Pattern stripping -/

theorem stripPre_append : ∀ (p r : List Char), stripPre p (p ++ r) = some r := by
  intro p
  induction p with
  | nil => intro r; rfl
  | cons x ps ih => intro r; simp [stripPre, ih]

theorem stripPre_eq : ∀ (p l : List Char),
    stripPre p l = if l.take p.length = p then some (l.drop p.length) else none := by
  intro p
  induction p with
  | nil => intro l; simp [stripPre]
  | cons x ps ih =>
    intro l
    cases l with
    | nil => simp [stripPre]
    | cons c cs =>
      simp only [stripPre, List.length_cons, List.take_succ_cons, List.drop_succ_cons]
      by_cases hcx : c = x
      · subst hcx
        rw [if_pos rfl, ih cs]
        by_cases h2 : cs.take ps.length = ps
        · simp [h2]
        · simp [h2]
      · rw [if_neg hcx, if_neg]
        intro hcontra
        exact hcx (List.head_eq_of_cons_eq hcontra)

theorem stripPre_kind_before (r : List Char) : stripPre kindPat (beforePat ++ r) = none := rfl

theorem stripPre_kind_after (r : List Char) : stripPre kindPat (afterPat ++ r) = none := rfl

theorem stripPre_before_after (r : List Char) : stripPre beforePat (afterPat ++ r) = none := rfl

theorem stripPre_after_before (r : List Char) : stripPre afterPat (beforePat ++ r) = none := rfl

/-! ## Condition round trip -/

theorem Condition.parse_render (c : Condition) (h : c.wf) :
    Condition.fromChars c.toChars = .ok c := by
  cases c with
  | Kind k =>
    simp only [Condition.toChars, Condition.fromChars, stripPre_append,
      parseU64_u64Chars k h]
  | CreatedBefore t =>
    simp only [Condition.toChars, Condition.fromChars, stripPre_kind_before,
      stripPre_append, parseU64_u64Chars t h]
  | CreatedAfter t =>
    simp only [Condition.toChars, Condition.fromChars, stripPre_kind_after,
      stripPre_before_after, stripPre_append, parseU64_u64Chars t h]

theorem Condition.toChars_ne_nil (c : Condition) : c.toChars ≠ [] := by
  cases c <;> simp [Condition.toChars, kindPat, beforePat, afterPat]

theorem Condition.amp_not_mem_toChars (c : Condition) : '&' ∉ c.toChars := by
  have hu : ∀ n : Nat, '&' ∉ u64Chars n := by
    intro n hmem
    have := u64Chars_digits n '&' hmem
    exact absurd this (by decide)
  cases c with
  | Kind k =>
    simp only [Condition.toChars, List.mem_append]
    rintro (hc | hc)
    · revert hc; decide
    · exact hu k hc
  | CreatedBefore t =>
    simp only [Condition.toChars, List.mem_append]
    rintro (hc | hc)
    · revert hc; decide
    · exact hu t hc
  | CreatedAfter t =>
    simp only [Condition.toChars, List.mem_append]
    rintro (hc | hc)
    · revert hc; decide
    · exact hu t hc

/-! ## Splitting on a separator -/

theorem splitChar_ne_nil (sep : Char) : ∀ l : List Char, splitChar sep l ≠ [] := by
  intro l
  induction l with
  | nil => simp [splitChar]
  | cons c cs ih =>
    rw [splitChar]
    by_cases hc : c = sep
    · simp [hc]
    · rw [if_neg hc]
      cases hsp : splitChar sep cs with
      | nil => simp
      | cons r rs => simp

theorem splitChar_no_sep (sep : Char) : ∀ l : List Char, sep ∉ l → splitChar sep l = [l] := by
  intro l
  induction l with
  | nil => intro _; rfl
  | cons c cs ih =>
    intro hmem
    have hc : c ≠ sep := fun h => hmem (h ▸ List.mem_cons_self c cs)
    have hcs : sep ∉ cs := fun h => hmem (List.mem_cons_of_mem c h)
    rw [splitChar, if_neg hc, ih hcs]

theorem splitChar_append_sep (sep : Char) :
    ∀ p rest : List Char, sep ∉ p →
      splitChar sep (p ++ sep :: rest) = p :: splitChar sep rest := by
  intro p
  induction p with
  | nil => intro rest _; simp [splitChar]
  | cons c p' ih =>
    intro rest hmem
    have hc : c ≠ sep := fun h => hmem (h ▸ List.mem_cons_self c p')
    have hp : sep ∉ p' := fun h => hmem (List.mem_cons_of_mem c h)
    rw [List.cons_append, splitChar, if_neg hc, ih rest hp]

theorem splitChar_intercalate (sep : Char) :
    ∀ ps : List (List Char), (∀ p ∈ ps, sep ∉ p) → ps ≠ [] →
      splitChar sep (List.intercalate [sep] ps) = ps := by
  intro ps
  induction ps with
  | nil => intro _ h; exact absurd rfl h
  | cons p ps ih =>
    intro hmem _
    cases ps with
    | nil =>
      rw [List.intercalate, List.intersperse_singleton, List.flatten_cons,
        List.flatten_nil, List.append_nil]
      exact splitChar_no_sep sep p (hmem p (List.mem_cons_self p []))
    | cons q t =>
      have hstep : List.intercalate [sep] (p :: q :: t) =
          p ++ sep :: List.intercalate [sep] (q :: t) := by
        rw [List.intercalate, List.intercalate, List.intersperse_cons_cons,
          List.flatten_cons, List.flatten_cons]
        simp
      rw [hstep, splitChar_append_sep sep p _ (hmem p (List.mem_cons_self p _)),
        ih (fun x hx => hmem x (List.mem_cons_of_mem p hx)) (by simp)]

/-! ## Conditions round trip -/

theorem parsePieces_map_toChars : ∀ cs : List Condition, (∀ c ∈ cs, c.wf) →
    parsePieces (cs.map Condition.toChars) = .ok cs := by
  intro cs
  induction cs with
  | nil => intro _; rfl
  | cons c cs ih =>
    intro hwf
    rw [List.map_cons, parsePieces,
      Condition.parse_render c (hwf c (List.mem_cons_self c cs)),
      ih (fun x hx => hwf x (List.mem_cons_of_mem c hx))]

theorem Conditions.fromChars_toChars (cs : Conditions) (h : cs.wf) :
    Conditions.fromChars cs.toChars = .ok cs := by
  obtain ⟨l⟩ := cs
  cases l with
  | nil => rfl
  | cons c t =>
    have hne : Conditions.toChars ⟨c :: t⟩ ≠ [] := by
      rw [Conditions.toChars, List.map_cons]
      cases ht : (t.map Condition.toChars) with
      | nil =>
        rw [List.intercalate, List.intersperse_singleton, List.flatten_cons,
          List.flatten_nil, List.append_nil]
        exact Condition.toChars_ne_nil c
      | cons q u =>
        rw [List.intercalate, List.intersperse_cons_cons, List.flatten_cons]
        intro hcontra
        rcases List.append_eq_nil.mp hcontra with ⟨h1, _⟩
        exact Condition.toChars_ne_nil c h1
    rw [Conditions.fromChars, if_neg hne, Conditions.toChars,
      splitChar_intercalate '&' ((c :: t).map Condition.toChars)
        (by
          intro p hp
          rcases List.mem_map.mp hp with ⟨x, _, hx⟩
          exact hx ▸ Condition.amp_not_mem_toChars x)
        (by simp),
      parsePieces_map_toChars (c :: t) h]

/-! ## Evaluation against the spec description -/

theorem Condition.evaluate_eq_specViolation (c : Condition) (ep : EventProperties) :
    c.evaluate ep = (match specViolation c ep with
      | some e => .error e
      | none => .ok ()) := by
  cases c with
  | Kind k =>
    by_cases h : ep.kind = k <;>
      simp [Condition.evaluate, specViolation, h]
  | CreatedBefore t =>
    by_cases h : ep.created_time ≥ t <;>
      simp [Condition.evaluate, specViolation, h]
  | CreatedAfter t =>
    by_cases h : ep.created_time ≤ t <;>
      simp [Condition.evaluate, specViolation, h]

theorem evalList_eq_findSome? : ∀ (l : List Condition) (ep : EventProperties),
    evalList l ep = (match l.findSome? (fun c => specViolation c ep) with
      | some e => .error e
      | none => .ok ()) := by
  intro l
  induction l with
  | nil => intro ep; rfl
  | cons c cs ih =>
    intro ep
    rw [evalList, List.findSome?_cons, Condition.evaluate_eq_specViolation c ep]
    cases specViolation c ep with
    | some e => rfl
    | none => exact ih ep

/-! ## Conditions parsing against the spec description -/

theorem splitChar_eq_splitOn (sep : Char) : ∀ l : List Char, splitChar sep l = l.splitOn sep := by
  intro l
  induction l with
  | nil => rfl
  | cons c cs ih =>
    rw [splitChar, ih, List.splitOn, List.splitOn, List.splitOnP_cons]
    by_cases hc : c = sep
    · simp [hc]
    · rw [if_neg hc, if_neg (by simp [hc])]
      obtain ⟨r, rs, hsp⟩ := List.exists_cons_of_ne_nil (List.splitOnP_ne_nil (fun a => a == sep) cs)
      rw [hsp, List.modifyHead_cons]

theorem parsePieces_eq_mapM : ∀ ps : List (List Char),
    parsePieces ps = ps.mapM Condition.fromChars := by
  intro ps
  induction ps with
  | nil => rfl
  | cons p ps ih =>
    rw [List.mapM_cons, parsePieces, ← ih]
    cases Condition.fromChars p with
    | error e => rfl
    | ok c =>
      cases parsePieces ps with
      | error e => rfl
      | ok cs => rfl

/-! ## Condition parsing against the spec grammar -/

theorem numeralBody_eq_ifs (ds : List Char) :
    numeralBody ds =
      (if ds = [] then none
       else if ds.all Char.isDigit then
         if digitsVal ds < 2 ^ 64 then some (digitsVal ds) else none
       else none) := by
  rw [numeralBody]
  by_cases h1 : ds = []
  · simp [h1]
  · by_cases h2 : ds.all Char.isDigit
    · by_cases h3 : digitsVal ds < 2 ^ 64
      · simp [h1, h2, h3]
      · simp [h1, h2, h3]
    · simp [h1, h2]

theorem parseU64_eq_specNumeral : ∀ l : List Char, parseU64 l = specNumeral l := by
  intro l
  cases l with
  | nil => rfl
  | cons c cs =>
    by_cases hc : c = '+'
    · subst hc
      have hred : parseU64 ('+' :: cs) =
          (if cs = [] then none
           else if cs.all Char.isDigit then
             if digitsVal cs < 2 ^ 64 then some (digitsVal cs) else none
           else none) := rfl
      have hsp : specNumeral ('+' :: cs) = numeralBody cs := rfl
      rw [hred, hsp, numeralBody_eq_ifs]
    · have hsp : specNumeral (c :: cs) = numeralBody (c :: cs) := by
        rw [specNumeral.eq_def]
        split
        · rename_i ds heq
          exact absurd (List.head_eq_of_cons_eq heq) hc
        · rfl
      rw [hsp, numeralBody_eq_ifs, parseU64]
      rw [if_neg (List.cons_ne_nil c cs)]
      simp only [List.head?_cons]
      rw [if_neg (by simp [hc] : ¬((some c : Option Char) = some '+'))]

theorem Condition.fromChars_eq_spec (l : List Char) :
    Condition.fromChars l = specCondParse l := by
  have hk : stripPre kindPat l = (if l.take 5 = kindPat then some (l.drop 5) else none) :=
    stripPre_eq kindPat l
  have hb : stripPre beforePat l = (if l.take 11 = beforePat then some (l.drop 11) else none) :=
    stripPre_eq beforePat l
  have ha : stripPre afterPat l = (if l.take 11 = afterPat then some (l.drop 11) else none) :=
    stripPre_eq afterPat l
  by_cases h1 : l.take 5 = kindPat
  · simp [Condition.fromChars, specCondParse, hk, h1, parseU64_eq_specNumeral]
  · by_cases h2 : l.take 11 = beforePat
    · simp [Condition.fromChars, specCondParse, hk, hb, h1, h2, parseU64_eq_specNumeral]
    · by_cases h3 : l.take 11 = afterPat
      · have hab : afterPat ≠ beforePat := by decide
        simp [Condition.fromChars, specCondParse, hk, hb, ha, h1, h2, h3, hab,
          parseU64_eq_specNumeral]
      · simp [Condition.fromChars, specCondParse, hk, hb, ha, h1, h2, h3]

theorem Conditions.fromStr_toStr (cs : Conditions) (h : cs.wf) :
    Conditions.fromStr cs.toStr = .ok cs :=
  Conditions.fromChars_toChars cs h

/-! ## Delegation token injectivity in the delegatee -/

theorem token_pk_inj {SK PK Sig Msg : Type} (O : Crypto SK PK Sig Msg)
    (hpk : Function.Injective O.pkToStr) (dpk dpk2 : PK) (c : Conditions)
    (h : DelegationToken.new O dpk c = DelegationToken.new O dpk2 c) : dpk = dpk2 := by
  rw [DelegationToken.new, DelegationToken.new] at h
  have hd := congrArg String.data h
  simp only [String.data_append] at hd
  have h1 := List.append_cancel_right hd
  have h2 := List.append_cancel_right h1
  have h3 := List.append_cancel_left h2
  exact hpk (String.ext h3)

end Nip26

/-! ## Claim theorems -/

/-- C1: For every delegator key pair, delegatee public key, conditions and event
properties, validating the tag built by `DelegationTag::new` against the same
delegatee and the event properties succeeds if and only if the conditions
evaluate successfully on those properties. The hypothesis `hcorrect` is the
signing-oracle contract from the spec (a produced signature always verifies
against the signer's public key), so only condition evaluation decides the
outcome. -/
theorem c1_validate_built_tag_iff_conditions {SK PK Sig Msg : Type}
    (O : Nip26.Crypto SK PK Sig Msg)
    (hcorrect : ∀ (sk : SK) (m : Msg), O.verify (O.sign sk m) m (O.pubkey sk) = true)
    (sk : SK) (dpk : PK) (c : Nip26.Conditions) (ep : Nip26.EventProperties) :
    (Nip26.DelegationTag.new O sk dpk c).validate O dpk ep = .ok () ↔
      c.evaluate ep = .ok () := by
  cases h : c.evaluate ep with
  | ok u =>
    cases u
    simp [Nip26.DelegationTag.validate, Nip26.DelegationTag.new,
      Nip26.verify_delegation_signature, Nip26.sign_delegation, hcorrect, h]
  | error e =>
    simp [Nip26.DelegationTag.validate, Nip26.DelegationTag.new,
      Nip26.verify_delegation_signature, Nip26.sign_delegation, hcorrect, h]

/-- Witness for C1: the toy oracle, a concrete delegator, delegatee, condition
set and event properties. -/
theorem c1_witness :
    ((Nip26.DelegationTag.new toyCrypto "sk" "dpk" condsEx).validate toyCrypto "dpk" epEx
        = .ok ()) ↔ condsEx.evaluate epEx = .ok () :=
  c1_validate_built_tag_iff_conditions toyCrypto (fun sk m => decide_eq_true rfl)
    "sk" "dpk" condsEx epEx

/-- C2: For every valid delegation tag (well-formed u64 payloads, and fields on
which the external hex and JSON codecs round-trip, per the spec's external
collaborator contracts), `DelegationTag::from_json` of `as_json` returns `Ok`
of a tag equal to the original. -/
theorem c2_tag_json_roundtrip {SK PK Sig Msg : Type} (O : Nip26.Crypto SK PK Sig Msg)
    (t : Nip26.DelegationTag PK Sig) (hwf : t.conditions.wf)
    (hjson : O.arrFromJson (O.arrToJson [Nip26.DELEGATION_KEYWORD,
        O.pkToStr t.delegator_pubkey, t.conditions.toStr, O.sigToStr t.signature]) =
      some [Nip26.DELEGATION_KEYWORD, O.pkToStr t.delegator_pubkey, t.conditions.toStr,
        O.sigToStr t.signature])
    (hpk : O.pkFromStr (O.pkToStr t.delegator_pubkey) = some t.delegator_pubkey)
    (hsig : O.sigFromStr (O.sigToStr t.signature) = some t.signature) :
    Nip26.DelegationTag.from_json O (t.as_json O) = .ok t := by
  simp only [Nip26.DELEGATION_KEYWORD] at hjson
  simp [Nip26.DelegationTag.from_json, Nip26.DelegationTag.as_json, hjson,
    Nip26.DelegationTag.tryFrom, Nip26.DELEGATION_KEYWORD, hpk, hsig,
    Nip26.Conditions.fromStr_toStr t.conditions hwf]

/-- Witness for C2: the toy oracle and a concrete tag. -/
theorem c2_witness :
    Nip26.DelegationTag.from_json toyCrypto (tagEx.as_json toyCrypto) = .ok tagEx :=
  c2_tag_json_roundtrip toyCrypto tagEx (by decide) (by decide) rfl (by decide)

/-- C3: `DelegationToken::new` produces exactly the string `nostr:delegation:`
followed by the rendering of the delegatee public key (64 lowercase hex
characters, produced by the upstream key type's `Display`), a colon, and the
canonical '&'-joined conditions string, with no trimming or escaping; in
particular, for the S2 delegatee key and conditions it is the literal S2
token. -/
theorem c3_token_exact_string {SK PK Sig Msg : Type} (O : Nip26.Crypto SK PK Sig Msg)
    (dpk2 : PK) (c2 : Nip26.Conditions) (dpk : PK)
    (h477 : O.pkToStr dpk =
      "477318cfb5427b9cfc66a9fa376150c1ddbc62115ae27cef72417eb959691396") :
    Nip26.DelegationToken.new O dpk2 c2 =
        "nostr:delegation:" ++ O.pkToStr dpk2 ++ ":" ++ c2.toStr ∧
      Nip26.Conditions.fromStr "kind=1&created_at>1674834236&created_at<1677426236" =
        .ok conds26 ∧
      Nip26.DelegationToken.new O dpk conds26 =
        "nostr:delegation:477318cfb5427b9cfc66a9fa376150c1ddbc62115ae27cef72417eb959691396:kind=1&created_at>1674834236&created_at<1677426236" := by
  refine ⟨rfl, by decide, ?_⟩
  rw [Nip26.DelegationToken.new, h477]
  decide

/-- Witness for C3: the toy oracle, where a key renders as itself. -/
theorem c3_witness :
    (Nip26.DelegationToken.new toyCrypto "x" condsEx =
        "nostr:delegation:" ++ toyCrypto.pkToStr "x" ++ ":" ++ condsEx.toStr) ∧
      (Nip26.Conditions.fromStr "kind=1&created_at>1674834236&created_at<1677426236" =
        .ok conds26) ∧
      Nip26.DelegationToken.new toyCrypto
          "477318cfb5427b9cfc66a9fa376150c1ddbc62115ae27cef72417eb959691396" conds26 =
        "nostr:delegation:477318cfb5427b9cfc66a9fa376150c1ddbc62115ae27cef72417eb959691396:kind=1&created_at>1674834236&created_at<1677426236" :=
  c3_token_exact_string toyCrypto "x" condsEx
    "477318cfb5427b9cfc66a9fa376150c1ddbc62115ae27cef72417eb959691396" rfl

/-- C4: For every condition sequence with u64-representable payloads (any
order, duplicates and unsatisfiable combinations included), parsing the
canonical rendering returns `Ok` of the same sequence, preserving element
order. -/
theorem c4_conditions_roundtrip (cs : Nip26.Conditions) (h : cs.wf) :
    Nip26.Conditions.fromStr cs.toStr = .ok cs :=
  Nip26.Conditions.fromStr_toStr cs h

/-- Witness for C4: the S2 condition sequence. -/
theorem c4_witness : Nip26.Conditions.fromStr conds26.toStr = .ok conds26 :=
  c4_conditions_roundtrip conds26 (by decide)

/-- C5: For every condition sequence and event properties,
`Conditions::evaluate` returns the validation error of the first condition in
sequence order that is violated and `Ok` when none is, where `Kind k` is
violated exactly when the kind differs, `CreatedBefore t` is violated exactly
when the creation time is at least `t` (yielding `CreatedTooLate`), and
`CreatedAfter t` exactly when it is at most `t` (yielding `CreatedTooEarly`) —
strict inequalities, so equality to the bound fails. -/
theorem c5_evaluate_first_violation (cs : Nip26.Conditions) (ep : Nip26.EventProperties) :
    cs.evaluate ep = Nip26.specEvaluate cs ep := by
  rw [Nip26.Conditions.evaluate, Nip26.evalList_eq_findSome?, Nip26.specEvaluate]

/-- C7: `Conditions::from_str` maps the empty string to the empty sequence (a
special case, not a one-element sequence holding an empty condition), splits
every non-empty input at every '&' with no trimming, parses each piece with
`Condition::from_str` propagating the first failure, and the empty sequence
formats back to the empty string. -/
theorem c7_conditions_parse_shape (s : String) :
    Nip26.Conditions.fromStr s = Nip26.specConditionsParse s ∧
      Nip26.Conditions.fromStr "" = .ok ⟨[]⟩ ∧
      Nip26.Conditions.toStr ⟨[]⟩ = "" := by
  refine ⟨?_, rfl, rfl⟩
  rw [Nip26.Conditions.fromStr, Nip26.Conditions.fromChars, Nip26.specConditionsParse]
  by_cases h : s.data = []
  · simp [h]
  · rw [if_neg h, if_neg h, Nip26.splitChar_eq_splitOn, Nip26.parsePieces_eq_mapM]

/-- C8 (amended): `Condition::from_str` accepts exactly the strings made of one
of the three literal patterns followed by a u64 numeral, where a numeral is an
optional leading '+' sign (accepted by Rust's `u64::from_str`, contrary to the
original claim) followed by one or more decimal digits whose value fits in 64
bits; parsing fails with `InvalidCondition` when no pattern matches and with
`Numeric` when the integer parse fails. -/
theorem c8_condition_grammar (s : String) :
    Nip26.Condition.fromStr s = Nip26.specCondParse s.data :=
  Nip26.Condition.fromChars_eq_spec s.data

/-- Counterexample for C8 as stated: the claim says a remainder with a leading
'+' must fail to parse, but the code accepts `kind=+1`. -/
theorem c8_plus_counterexample :
    Nip26.Condition.fromStr "kind=+1" = .ok (.Kind 1) := by decide

/-- C9: Whenever the scheduled-for-termination flag is set — and
`Relay::terminate` sets it — the supervisor loop at its next iteration (one
tick of 20 seconds at most, modelled here as one loop step), regardless of the
rest of the relay state (writer-task liveness, queue contents, dial outcome),
sets the status to `Terminated`, clears the flag, and exits. -/
theorem c9_supervisor_terminates_on_flag (dialOk : Bool) (sAny sFlag : Relay.RelayState)
    (h : sFlag.scheduledForTermination = true) :
    (Relay.terminate sAny).1.scheduledForTermination = true ∧
      Relay.connectionThreadStep dialOk sFlag =
        ({ sFlag with
            status := Relay.RelayStatus.Terminated
            scheduledForTermination := false }, Relay.LoopOutcome.exit) ∧
      Relay.supervisorTickSeconds = 20 := by
  refine ⟨?_, ?_, rfl⟩
  · rw [Relay.terminate, Relay.sendRelayEvent]
    split
    · rfl
    · rfl
  · rw [Relay.connectionThreadStep, if_pos h]

/-- Witness for C9 at concrete states (closed channel, stale queue). -/
theorem c9_witness :
    (Relay.terminate ⟨Relay.RelayStatus.Connected, false, [], true⟩).1.scheduledForTermination
        = true ∧
      Relay.connectionThreadStep true
          ⟨Relay.RelayStatus.Connected, true, [Relay.RelayEvent.Ping], false⟩ =
        (⟨Relay.RelayStatus.Terminated, false, [Relay.RelayEvent.Ping], false⟩,
          Relay.LoopOutcome.exit) ∧
      Relay.supervisorTickSeconds = 20 :=
  c9_supervisor_terminates_on_flag true ⟨Relay.RelayStatus.Connected, false, [], true⟩
    ⟨Relay.RelayStatus.Connected, true, [Relay.RelayEvent.Ping], false⟩ rfl

/-- C10: For every relay whose status is neither `Initialized` nor
`Terminated`, `Relay::connect` is a no-op — the whole state is unchanged and no
supervisor is spawned — and in general a supervisor is spawned exactly when the
status is `Initialized` or `Terminated`. -/
theorem c10_connect_gate (dialOk wait : Bool) (s s2 : Relay.RelayState)
    (h : s.status ≠ Relay.RelayStatus.Initialized ∧
      s.status ≠ Relay.RelayStatus.Terminated) :
    Relay.connect dialOk wait s = (s, false) ∧
      ((Relay.connect dialOk wait s2).2 = true ↔
        (s2.status = Relay.RelayStatus.Initialized ∨
          s2.status = Relay.RelayStatus.Terminated)) := by
  constructor
  · cases hstat : s.status with
    | Initialized => exact absurd hstat h.1
    | Terminated => exact absurd hstat h.2
    | Connected => simp [Relay.connect, hstat]
    | Connecting => simp [Relay.connect, hstat]
    | Disconnected => simp [Relay.connect, hstat]
  · cases hstat2 : s2.status <;> cases wait <;> simp [Relay.connect, hstat2]

/-- Witness for C10: a connected relay is untouched, an initialized one spawns
the supervisor. -/
theorem c10_witness :
    Relay.connect true false ⟨Relay.RelayStatus.Connected, false, [], true⟩ =
        (⟨Relay.RelayStatus.Connected, false, [], true⟩, false) ∧
      ((Relay.connect true false ⟨Relay.RelayStatus.Initialized, false, [], true⟩).2 = true ↔
        ((⟨Relay.RelayStatus.Initialized, false, [], true⟩ : Relay.RelayState).status =
            Relay.RelayStatus.Initialized ∨
          (⟨Relay.RelayStatus.Initialized, false, [], true⟩ : Relay.RelayState).status =
            Relay.RelayStatus.Terminated)) :=
  c10_connect_gate true false ⟨Relay.RelayStatus.Connected, false, [], true⟩
    ⟨Relay.RelayStatus.Initialized, false, [], true⟩ ⟨by decide, by decide⟩

/-- C6: `DelegationTag::validate` rebuilds the signing preimage from the
delegatee public key passed as argument (the tag stores no delegatee key), and
any signature-verification failure is returned as
`Error::ConditionsValidation(ValidationError::InvalidSignature)`, never as a
raw crypto-library error; in particular validating a tag built for one
delegatee against a different delegatee fails that way even when the event
properties satisfy the conditions. The hypotheses are the idealized oracle
contracts: a signature verifies only against the signed message (`hsound`),
SHA-256 is collision-free on the tokens at hand (`hhash`), and the hex
rendering of keys is injective (`hpk`). -/
theorem c6_invalid_signature_remap {SK PK Sig Msg : Type} (O : Nip26.Crypto SK PK Sig Msg)
    (hsound : ∀ (sk : SK) (m m2 : Msg), O.verify (O.sign sk m) m2 (O.pubkey sk) = true → m2 = m)
    (hhash : Function.Injective O.sha256) (hpk : Function.Injective O.pkToStr)
    (t : Nip26.DelegationTag PK Sig) (dpkA : PK) (epA : Nip26.EventProperties)
    (hver : O.verify t.signature
        (O.sha256 (Nip26.DelegationToken.new O dpkA t.conditions)) t.delegator_pubkey = false)
    (sk : SK) (dpk dpkW : PK) (c : Nip26.Conditions) (ep : Nip26.EventProperties)
    (hne : dpkW ≠ dpk) :
    t.validate O dpkA epA = .error (.ConditionsValidation .InvalidSignature) ∧
      (Nip26.DelegationTag.new O sk dpk c).validate O dpkW ep =
        .error (.ConditionsValidation .InvalidSignature) := by
  constructor
  · simp [Nip26.DelegationTag.validate, Nip26.verify_delegation_signature, hver]
  · have hv : O.verify (O.sign sk (O.sha256 (Nip26.DelegationToken.new O dpk c)))
        (O.sha256 (Nip26.DelegationToken.new O dpkW c)) (O.pubkey sk) = false := by
      cases hb : O.verify (O.sign sk (O.sha256 (Nip26.DelegationToken.new O dpk c)))
          (O.sha256 (Nip26.DelegationToken.new O dpkW c)) (O.pubkey sk) with
      | false => rfl
      | true =>
        have hmsg := hsound sk _ _ hb
        have htok := hhash hmsg
        exact absurd (Nip26.token_pk_inj O hpk dpkW dpk c htok) hne
    simp [Nip26.DelegationTag.validate, Nip26.DelegationTag.new,
      Nip26.verify_delegation_signature, Nip26.sign_delegation, hv]

/-- Witness for C6: the toy oracle, a tag carrying a garbage signature, and a
tag built for one delegatee but validated against another. -/
theorem c6_witness :
    (Nip26.DelegationTag.validate toyCrypto ⟨"pk", condsEx, ("bad", "sig")⟩ "dpk" epEx =
        .error (.ConditionsValidation .InvalidSignature)) ∧
      (Nip26.DelegationTag.new toyCrypto "sk" "dpk" condsEx).validate toyCrypto "other" epEx =
        .error (.ConditionsValidation .InvalidSignature) :=
  c6_invalid_signature_remap toyCrypto
    (fun sk m m2 h => (congrArg Prod.snd (of_decide_eq_true h)).symm)
    (fun a b h => h) (fun a b h => h)
    ⟨"pk", condsEx, ("bad", "sig")⟩ "dpk" epEx (by decide)
    "sk" "dpk" "other" condsEx epEx (by decide)
